import Mathlib

/-!
Verification of the Helmholtz finite-difference / GMRES basics repository.

The operator-assembly layer (`src/operators.py`, `python/helmholtz_basics/operators.py`)
is embedded over `ℚ`: all stencil weights are rational functions of the grid
spacings, so exact rational arithmetic reproduces the assembled matrices exactly.
Sparse matrices are embedded as total entry functions together with their
declared dimension (`QMat`); row iteration over `np.ndindex` becomes a
condition on the (row-major) multi-index of each row.
-/

namespace HelmholtzSpec

/-- Grid descriptor mirroring `GridSpec` (`src/config.py`): node counts per axis
and physical lengths per axis.  `dims` is derived as the arity, matching a
validly constructed `GridSpec` where `len(shape) == dims`. -/
structure Grid where
  shape : List ℕ
  lengths : List ℚ

/-- Number of dimensions of the grid (`GridSpec.dims` for a valid spec). -/
def Grid.dims (g : Grid) : ℕ := g.shape.length

/-- Mesh spacing per axis: `tuple(L / (n - 1) for L, n in zip(lengths, shape))`
(`GridSpec.spacing`). -/
def Grid.spacing (g : Grid) : List ℚ :=
  (g.lengths.zip g.shape).map fun p => p.1 / ((p.2 : ℚ) - 1)

/-- Total number of grid points: the product of `shape` (`GridSpec.size`). -/
def Grid.size (g : Grid) : ℕ := g.shape.prod

/-- Validity of a grid, as enforced by `GridSpec.__post_init__`:
dimension in 1..3, matching arities, at least two nodes per axis,
positive lengths. -/
def Grid.valid (g : Grid) : Prop :=
  1 ≤ g.dims ∧ g.dims ≤ 3 ∧ g.lengths.length = g.shape.length ∧
    (∀ n ∈ g.shape, 2 ≤ n) ∧ (∀ L ∈ g.lengths, 0 < L)

instance (g : Grid) : Decidable g.valid := by
  unfold Grid.valid; infer_instance

/-- Row-major (C-order) flattening of a multi-index (`_flatten_index` in
`src/operators.py`): fold over the reversed index/shape pairs accumulating
`linear += i * stride; stride *= dim`. -/
def flatten_index (idx shape : List ℕ) : ℕ :=
  ((idx.reverse.zip shape.reverse).foldl
    (fun st p => (st.1 + p.1 * st.2, st.2 * p.2)) ((0 : ℕ), (1 : ℕ))).1

/-- Inverse of row-major flattening: the multi-index of row `r` in C-order
(the order in which `np.ndindex(shape)` enumerates rows). -/
def unflatten_index (r : ℕ) : List ℕ → List ℕ
  | [] => []
  | n :: rest => (r / rest.prod) % n :: unflatten_index (r % rest.prod) rest

/-- Whether a multi-index touches the first or last node of some axis
(`_on_boundary` in `src/operators.py`). -/
def on_boundary (idx shape : List ℕ) : Bool :=
  (idx.zip shape).any fun p => decide (p.1 = 0) || decide (p.1 = p.2 - 1)

/-- Sparse matrix embedded as a declared dimension plus a total entry
function; entries outside the declared `n × n` block are `0` in every
constructor below. -/
structure QMat where
  n : ℕ
  entry : ℕ → ℕ → ℚ

/-- Identity matrix (`sparse.eye(m)`). -/
def eye (m : ℕ) : QMat :=
  ⟨m, fun i j => if i < m ∧ i = j then 1 else 0⟩

/-- 1-D second-derivative tridiagonal matrix (`_second_derivative_1d`):
diagonal `-2/h²`, off-diagonals `+1/h²`. -/
def second_derivative_1d (m : ℕ) (h : ℚ) : QMat :=
  ⟨m, fun i j =>
    if i < m ∧ j < m then
      (if i = j then -2 / (h * h)
       else if j = i + 1 ∨ i = j + 1 then 1 / (h * h) else 0)
    else 0⟩

/-- Kronecker product of two square sparse matrices (`sparse.kron`):
`(A ⊗ B)[i, j] = A[i / nB, j / nB] * B[i % nB, j % nB]`. -/
def kron (A B : QMat) : QMat :=
  ⟨A.n * B.n, fun i j => A.entry (i / B.n) (j / B.n) * B.entry (i % B.n) (j % B.n)⟩

/-- Entrywise sum of two square matrices of the same declared dimension. -/
def qadd (A B : QMat) : QMat :=
  ⟨A.n, fun i j => A.entry i j + B.entry i j⟩

/-- Scalar multiple of a matrix. -/
def qsmul (c : ℚ) (A : QMat) : QMat :=
  ⟨A.n, fun i j => c * A.entry i j⟩

/-- `_kron_all`: left fold of `kron` over a list of matrices
(`reduce(lambda a, b: sparse.kron(a, b), mats)`); the empty case never
arises for a valid grid. -/
def kron_all : List QMat → QMat
  | [] => eye 1
  | m :: rest => rest.foldl kron m

/-- `reduce(lambda acc, term: acc + term, comps)`; the empty case never
arises for a valid grid (Python `reduce` would raise there). -/
def reduce_add : List QMat → QMat
  | [] => eye 1
  | c :: rest => rest.foldl qadd c

/-- Supported boundary conditions (`BC` enum in `src/operators.py`). -/
inductive BC
  | dirichlet
  | neumann
  | periodic

/-- The Kronecker-sum component for one axis: identities on every axis except
`axis`, which carries the 1-D second-derivative stencil (body of the `for axis`
loop in `_assemble_laplacian_fd`). -/
def laplacian_component (g : Grid) (axis : ℕ) : QMat :=
  kron_all ((List.range g.dims).map fun a =>
    if a = axis then second_derivative_1d (g.shape.getD a 0) (g.spacing.getD a 0)
    else eye (g.shape.getD a 0))

/-- The Kronecker-sum Laplacian before any boundary handling
(`L = reduce(lambda acc, term: acc + term, comps)` in `_assemble_laplacian_fd`). -/
def laplacian_no_bc (g : Grid) : QMat :=
  reduce_add ((List.range g.dims).map (laplacian_component g))

/-- `_apply_dirichlet` (`src/operators.py`): every row whose multi-index
touches the boundary is replaced by the unit row (`A.rows[r] = [r];
A.data[r] = [1]`); other rows are untouched. -/
def apply_dirichlet (M : QMat) (shape : List ℕ) : QMat :=
  ⟨M.n, fun i j =>
    if i < M.n ∧ on_boundary (unflatten_index i shape) shape then
      (if j = i then 1 else 0)
    else M.entry i j⟩

/-- `_apply_neumann` (`src/operators.py`): for every axis, add `+1/h²` to the
diagonal of every node lying on a face orthogonal to that axis. -/
def apply_neumann (M : QMat) (shape : List ℕ) (spacing : List ℚ) : QMat :=
  ⟨M.n, fun i j =>
    M.entry i j +
      if i < M.n ∧ j = i then
        ((List.range shape.length).map fun a =>
          if (unflatten_index i shape).getD a 0 = 0 ∨
             (unflatten_index i shape).getD a 0 = shape.getD a 0 - 1 then
            1 / (spacing.getD a 0 * spacing.getD a 0)
          else 0).sum
      else 0⟩

/-- `_apply_periodic` (`src/operators.py`): for every axis `a` and EVERY row
`r` with multi-index `idx`, add `+1/h_a²` at column `flatten(idx with
idx[a] := (idx[a] - 1) mod n_a)` and at column `flatten(idx with
idx[a] := (idx[a] + 1) mod n_a)` (the source moves `+2` from the already
wrapped `-1` neighbour, which is the same column). -/
def apply_periodic (M : QMat) (shape : List ℕ) (spacing : List ℚ) : QMat :=
  ⟨M.n, fun i j =>
    M.entry i j +
      if i < M.n then
        ((List.range shape.length).map fun a =>
          (if j = flatten_index
                ((unflatten_index i shape).set a
                  (((unflatten_index i shape).getD a 0 + (shape.getD a 0 - 1)) % shape.getD a 0))
                shape then
            1 / (spacing.getD a 0 * spacing.getD a 0) else 0) +
          (if j = flatten_index
                ((unflatten_index i shape).set a
                  (((unflatten_index i shape).getD a 0 + 1) % shape.getD a 0))
                shape then
            1 / (spacing.getD a 0 * spacing.getD a 0) else 0)).sum
      else 0⟩

/-- `_assemble_laplacian_fd`: the Kronecker-sum Laplacian with the boundary
condition applied as a post-pass. -/
def assemble_laplacian_fd (g : Grid) (bc : BC) : QMat :=
  match bc with
  | .dirichlet => apply_dirichlet (laplacian_no_bc g) g.shape
  | .neumann => apply_neumann (laplacian_no_bc g) g.shape g.spacing
  | .periodic => apply_periodic (laplacian_no_bc g) g.shape g.spacing

/-- `helmholtz_operator` (`src/operators.py`): the boundary-adjusted Laplacian
plus `k² · eye(grid.size)` — note the mass term is added AFTER the boundary
pass. -/
def helmholtz_operator (g : Grid) (k : ℚ) (bc : BC) : QMat :=
  qadd (assemble_laplacian_fd g bc) (qsmul (k * k) (eye g.size))

/-- `_assemble_2d` (`python/helmholtz_basics/operators.py`): 2-D Dirichlet
Helmholtz where the wavenumber enters BOTH through `main = 2/hx² + 2/hy² + k²`
on the `Dx` diagonal AND through the extra `+ k² * eye(nx*ny)` term, after
which `_apply_dirichlet` replaces boundary rows by unit rows. -/
def assemble_2d (g : Grid) (k : ℚ) : QMat :=
  let nx := g.shape.getD 0 0
  let ny := g.shape.getD 1 0
  let hx := g.spacing.getD 0 0
  let hy := g.spacing.getD 1 0
  let main := 2 / (hx * hx) + 2 / (hy * hy) + k * k
  let Dx : QMat :=
    ⟨nx, fun i j =>
      if i < nx ∧ j < nx then
        (if i = j then main
         else if j = i + 1 ∨ i = j + 1 then -(1 / (hx * hx)) else 0)
      else 0⟩
  let Dy : QMat :=
    ⟨ny, fun i j =>
      if i < ny ∧ j < ny then
        (if i = j then 0
         else if j = i + 1 ∨ i = j + 1 then -(1 / (hy * hy)) else 0)
      else 0⟩
  let laplace := qadd (kron Dx (eye ny)) (kron (eye nx) Dy)
  apply_dirichlet (qadd laplace (qsmul (k * k) (eye (nx * ny)))) g.shape

/-! Dimension bookkeeping lemmas: the assembled operator is square of size
`grid.size`. -/

theorem foldl_qadd_n (l : List QMat) (m : QMat) : (l.foldl qadd m).n = m.n := by
  induction l generalizing m with
  | nil => rfl
  | cons a t ih => simpa [qadd] using ih (qadd m a)

theorem foldl_kron_n (l : List QMat) (m : QMat) :
    (l.foldl kron m).n = m.n * (l.map QMat.n).prod := by
  induction l generalizing m with
  | nil => simp
  | cons a t ih =>
    simp only [List.foldl_cons, List.map_cons, List.prod_cons]
    rw [ih (kron m a)]
    simp [kron]; ring

theorem kron_all_n (l : List QMat) : (kron_all l).n = (l.map QMat.n).prod := by
  cases l with
  | nil => simp [kron_all, eye]
  | cons m rest => simpa [kron_all] using foldl_kron_n rest m

theorem range_map_getD (s : List ℕ) :
    (List.range s.length).map (fun a => s.getD a 0) = s := by
  refine List.ext_getElem (by simp) ?_
  intro i h1 h2
  simp only [List.getElem_map, List.getElem_range]
  exact List.getD_eq_getElem _ _ h2

theorem laplacian_component_n (g : Grid) (axis : ℕ) :
    (laplacian_component g axis).n = g.size := by
  unfold laplacian_component
  rw [kron_all_n, List.map_map]
  have h : (QMat.n ∘ fun a =>
      if a = axis then second_derivative_1d (g.shape.getD a 0) (g.spacing.getD a 0)
      else eye (g.shape.getD a 0)) = fun a => g.shape.getD a 0 := by
    funext a
    by_cases ha : a = axis <;> simp [ha, second_derivative_1d, eye]
  rw [h]
  show ((List.range g.shape.length).map fun a => g.shape.getD a 0).prod = g.size
  rw [range_map_getD]
  rfl

theorem laplacian_no_bc_n (g : Grid) (h1 : 1 ≤ g.dims) :
    (laplacian_no_bc g).n = g.size := by
  unfold laplacian_no_bc
  obtain ⟨m, hm⟩ : ∃ m, g.dims = m + 1 := ⟨g.dims - 1, by omega⟩
  rw [hm, List.range_succ_eq_map, List.map_cons]
  simp only [reduce_add]
  rw [foldl_qadd_n]
  exact laplacian_component_n g 0

/-- C1 (amended): for every valid grid and every wavenumber `k`, the Dirichlet
Helmholtz operator from `src/operators.py` is square of size `grid.size`, and
every row whose multi-index touches the boundary has `1 + k²` on the diagonal
and `0` elsewhere — a unit row exactly when `k = 0`, because the mass term
`k²·I` is added after the Dirichlet pass. -/
theorem c1_dirichlet_boundary_rows (g : Grid) (hg : g.valid) (k : ℚ) (i : ℕ)
    (hi : i < g.size) (hb : on_boundary (unflatten_index i g.shape) g.shape = true) :
    (helmholtz_operator g k .dirichlet).n = g.size ∧
      ∀ j, (helmholtz_operator g k .dirichlet).entry i j
        = if j = i then 1 + k * k else 0 := by
  have hL : (laplacian_no_bc g).n = g.size := laplacian_no_bc_n g hg.1
  constructor
  · simpa [helmholtz_operator, assemble_laplacian_fd, qadd, apply_dirichlet] using hL
  · intro j
    simp only [helmholtz_operator, assemble_laplacian_fd, qadd, qsmul, apply_dirichlet, eye, hL]
    rw [if_pos ⟨hi, hb⟩]
    by_cases hji : j = i
    · subst hji
      rw [if_pos rfl, if_pos ⟨hi, rfl⟩, if_pos rfl]
      ring
    · rw [if_neg hji, if_neg (fun h => hji (h.2.symm)), if_neg hji]
      ring

/-- C1 witness: the concrete 1-D grid with 3 nodes on `[0,1]`, wavenumber 1:
row 0 is a boundary row and its entries are `2 = 1 + 1²` on the diagonal and
`0` beside it. -/
theorem c1_dirichlet_boundary_rows_witness :
    Grid.valid ⟨[3], [1]⟩ ∧ (0 : ℕ) < Grid.size ⟨[3], [1]⟩ ∧
      on_boundary (unflatten_index 0 [3]) [3] = true ∧
      (helmholtz_operator ⟨[3], [1]⟩ 1 .dirichlet).entry 0 0 = 2 ∧
      (helmholtz_operator ⟨[3], [1]⟩ 1 .dirichlet).entry 0 1 = 0 := by
  refine ⟨by decide, by decide, by decide, ?_, ?_⟩
  · have h := (c1_dirichlet_boundary_rows ⟨[3], [1]⟩ (by decide) 1 0 (by decide) (by decide)).2 0
    rw [if_pos rfl] at h
    rw [h]; norm_num
  · have h := (c1_dirichlet_boundary_rows ⟨[3], [1]⟩ (by decide) 1 0 (by decide) (by decide)).2 1
    rw [if_neg (by decide)] at h
    exact h

/-- C1 counterexample: on the valid 1-D grid with 3 nodes and wavenumber 1,
row 0 is a boundary row but its diagonal entry is `2`, not `1` — the row is
not the unit row, refuting the claim as stated for `k ≠ 0`. -/
theorem c1_counterexample :
    Grid.valid ⟨[3], [1]⟩ ∧ on_boundary (unflatten_index 0 [3]) [3] = true ∧
      ¬((helmholtz_operator ⟨[3], [1]⟩ 1 .dirichlet).entry 0 0 = 1) := by
  refine ⟨by decide, by decide, ?_⟩
  have h : (helmholtz_operator ⟨[3], [1]⟩ 1 .dirichlet).entry 0 0 = 2 := by
    norm_num [helmholtz_operator, assemble_laplacian_fd, apply_dirichlet, laplacian_no_bc,
      reduce_add, laplacian_component, kron_all, kron, qadd, qsmul, eye, second_derivative_1d,
      Grid.dims, Grid.size, Grid.spacing, unflatten_index, flatten_index, on_boundary,
      List.range_succ, List.getD]
  rw [h]
  norm_num

/-- C2: for the `src/operators.py` assembler the wavenumber shift is exact —
`H(k) - H(0) = k²·I` at EVERY entry (hence on interior rows) for every grid
and boundary condition, because the boundary pass acts on the Laplacian only.
But for `_assemble_2d` of `python/helmholtz_basics/operators.py` the
difference at the interior row 4 of the 3×3 grid on `[0,2]²` is `2k² = 2`,
not `k² = 1`: the wavenumber is added both inside `main` and as a second
`k²·eye` term. -/
theorem c2_wavenumber_shift :
    (∀ (g : Grid) (k : ℚ) (bc : BC) (i j : ℕ),
      (helmholtz_operator g k bc).entry i j - (helmholtz_operator g 0 bc).entry i j
        = k * k * (eye g.size).entry i j) ∧
    on_boundary (unflatten_index 4 [3, 3]) [3, 3] = false ∧
    (assemble_2d ⟨[3, 3], [2, 2]⟩ 1).entry 4 4
        - (assemble_2d ⟨[3, 3], [2, 2]⟩ 0).entry 4 4 = 2 := by
  refine ⟨?_, by decide, ?_⟩
  · intro g k bc i j
    simp only [helmholtz_operator, qadd, qsmul]
    ring
  · norm_num [assemble_2d, apply_dirichlet, kron, qadd, qsmul, eye,
      Grid.dims, Grid.size, Grid.spacing, unflatten_index, flatten_index, on_boundary,
      List.range_succ, List.getD]

/-- C3: the periodic pass of `src/operators.py` corrupts interior rows.  On
the valid 1-D grid with 4 nodes on `[0,3]` (spacing 1), row 1 is interior and
its pre-pass coupling to column 0 is `1/h² = 1`; after `_apply_periodic` that
entry is `2`, because the pass adds `+1/h²` to the ±1 neighbours of EVERY row
instead of only adding the wrap-around couplings at the faces.  (The wrap
coupling `(0, 3)` itself is added, as the claim describes.) -/
theorem c3_periodic_pass_eval :
    Grid.valid ⟨[4], [3]⟩ ∧
      on_boundary (unflatten_index 1 [4]) [4] = false ∧
      (laplacian_no_bc ⟨[4], [3]⟩).entry 1 0 = 1 ∧
      (assemble_laplacian_fd ⟨[4], [3]⟩ .periodic).entry 1 0 = 2 ∧
      (assemble_laplacian_fd ⟨[4], [3]⟩ .periodic).entry 0 3 = 1 := by
  refine ⟨by decide, by decide, ?_, ?_, ?_⟩ <;>
    norm_num [assemble_laplacian_fd, apply_periodic, laplacian_no_bc,
      reduce_add, laplacian_component, kron_all, kron, qadd, eye, second_derivative_1d,
      Grid.dims, Grid.size, Grid.spacing, unflatten_index, flatten_index,
      List.range_succ, List.getD]

/-! Grid-construction validation (`GridSpec.__post_init__` in `src/config.py`):
the raw inputs are kept as given (`dims : int`, tuples of ints and floats);
construction either raises `ValueError` or stores the fields unchanged. -/

/-- Whether an `Except` result is a success. -/
def exceptIsOk {α : Type _} : Except String α → Bool
  | .ok _ => true
  | .error _ => false

/-- `GridSpec.__post_init__` (`src/config.py`): the checks in source order with
the source error messages; a passing construction stores the inputs unchanged
(frozen dataclass). -/
def mkGridSpec (dims : ℤ) (shape : List ℤ) (lengths : List ℚ) :
    Except String (ℤ × List ℤ × List ℚ) :=
  if ¬(1 ≤ dims ∧ dims ≤ 3) then .error ("Only 1D, 2D, or 3D grids are supported")
  else if (shape.length : ℤ) ≠ dims then .error ("shape must match the number of dimensions")
  else if (lengths.length : ℤ) ≠ dims then .error ("lengths must match the number of dimensions")
  else if shape.any (fun n => decide (n ≤ 1)) then .error ("each dimension needs at least two nodes")
  else if lengths.any (fun L => decide (L ≤ 0)) then .error ("domain lengths must be positive")
  else .ok (dims, shape, lengths)

/-- `GridSpec.spacing` on the raw fields:
`tuple(L / (n - 1) for L, n in zip(lengths, shape))`. -/
def gridSpacing (shape : List ℤ) (lengths : List ℚ) : List ℚ :=
  (lengths.zip shape).map fun p => p.1 / ((p.2 : ℚ) - 1)

/-- C7: grid construction fails exactly when `dims` is outside 1..3, an arity
mismatches, a shape entry is ≤ 1, or a length is ≤ 0; a successful
construction stores the inputs unchanged (no clamping) and every derived
spacing entry `lengths[i]/(shape[i]-1)` is positive. -/
theorem c7_grid_validation (d : ℤ) (s : List ℤ) (l : List ℚ) :
    (exceptIsOk (mkGridSpec d s l) = false ↔
      (¬(1 ≤ d ∧ d ≤ 3) ∨ (s.length : ℤ) ≠ d ∨ (l.length : ℤ) ≠ d ∨
        (∃ n ∈ s, n ≤ 1) ∨ (∃ L ∈ l, L ≤ 0))) ∧
    ∀ t, mkGridSpec d s l = .ok t → t = (d, s, l) ∧ ∀ sp ∈ gridSpacing s l, 0 < sp := by
  by_cases h1 : 1 ≤ d ∧ d ≤ 3
  · by_cases h2 : (s.length : ℤ) = d
    · by_cases h3 : (l.length : ℤ) = d
      · by_cases h4 : s.any (fun n => decide (n ≤ 1)) = true
        · unfold mkGridSpec
          rw [if_neg (not_not_intro h1), if_neg (not_not_intro h2),
            if_neg (not_not_intro h3), if_pos h4]
          refine ⟨?_, fun t ht => by simp at ht⟩
          simp only [exceptIsOk, true_iff]
          refine Or.inr (Or.inr (Or.inr (Or.inl ?_)))
          rw [List.any_eq_true] at h4
          obtain ⟨x, hx, hx2⟩ := h4
          exact ⟨x, hx, by simpa using hx2⟩
        · by_cases h5 : l.any (fun L => decide (L ≤ 0)) = true
          · unfold mkGridSpec
            rw [if_neg (not_not_intro h1), if_neg (not_not_intro h2),
              if_neg (not_not_intro h3), if_neg h4, if_pos h5]
            refine ⟨?_, fun t ht => by simp at ht⟩
            simp only [exceptIsOk, true_iff]
            refine Or.inr (Or.inr (Or.inr (Or.inr ?_)))
            rw [List.any_eq_true] at h5
            obtain ⟨L, hL, hL2⟩ := h5
            exact ⟨L, hL, by simpa using hL2⟩
          · unfold mkGridSpec
            rw [if_neg (not_not_intro h1), if_neg (not_not_intro h2),
              if_neg (not_not_intro h3), if_neg h4, if_neg h5]
            constructor
            · simp only [exceptIsOk, Bool.true_eq_false, false_iff]
              intro hcon
              rcases hcon with hc | hc | hc | hc | hc
              · exact hc h1
              · exact hc h2
              · exact hc h3
              · obtain ⟨x, hx, hx2⟩ := hc
                exact h4 (List.any_eq_true.mpr ⟨x, hx, by simpa using hx2⟩)
              · obtain ⟨L, hL, hL2⟩ := hc
                exact h5 (List.any_eq_true.mpr ⟨L, hL, by simpa using hL2⟩)
            · intro t ht
              have ht2 : (d, s, l) = t := by simpa using ht
              refine ⟨ht2.symm, ?_⟩
              intro sp hsp
              obtain ⟨p, hp, rfl⟩ := List.mem_map.mp hsp
              obtain ⟨hp1, hp2⟩ := List.of_mem_zip hp
              have hL : 0 < p.1 := by
                by_contra hc
                exact h5 (List.any_eq_true.mpr ⟨p.1, hp1, by simpa using not_lt.mp hc⟩)
              have hn : 2 ≤ p.2 := by
                by_contra hc
                exact h4 (List.any_eq_true.mpr
                  ⟨p.2, hp2, by simp only [decide_eq_true_eq]; omega⟩)
              have hden : (0 : ℚ) < (p.2 : ℚ) - 1 := by
                have h2c : (2 : ℚ) ≤ (p.2 : ℚ) := by exact_mod_cast hn
                linarith
              exact div_pos hL hden
      · unfold mkGridSpec
        rw [if_neg (not_not_intro h1), if_neg (not_not_intro h2), if_pos h3]
        refine ⟨?_, fun t ht => by simp at ht⟩
        simp only [exceptIsOk, true_iff]
        exact Or.inr (Or.inr (Or.inl h3))
    · unfold mkGridSpec
      rw [if_neg (not_not_intro h1), if_pos h2]
      refine ⟨?_, fun t ht => by simp at ht⟩
      simp only [exceptIsOk, true_iff]
      exact Or.inr (Or.inl h2)
  · unfold mkGridSpec
    rw [if_pos h1]
    refine ⟨?_, fun t ht => by simp at ht⟩
    simp only [exceptIsOk, true_iff]
    exact Or.inl h1

/-- C7 witness: a 4-dimensional request is rejected; the valid grid
`(2, (3, 4), (1.0, 2.0))` is accepted unchanged and both spacings are
positive. -/
theorem c7_grid_validation_witness :
    exceptIsOk (mkGridSpec 4 [2, 2, 2, 2] [1, 1, 1, 1]) = false ∧
      mkGridSpec 2 [3, 4] [1, 2] = .ok (2, [3, 4], [1, 2]) ∧
      ∀ sp ∈ gridSpacing [3, 4] [1, 2], 0 < sp := by
  have hok : mkGridSpec 2 [3, 4] [1, 2] = .ok (2, [3, 4], [1, 2]) := by
    norm_num [mkGridSpec]
  refine ⟨?_, hok, ?_⟩
  · exact (c7_grid_validation 4 [2, 2, 2, 2] [1, 1, 1, 1]).1.mpr (Or.inl (by decide))
  · intro sp hsp
    exact ((c7_grid_validation 2 [3, 4] [1, 2]).2 (2, [3, 4], [1, 2]) hok).2 sp hsp

/-! Plane-wave loads.  `np.linalg.norm` of the direction vector is a real
square root, so the builders live over `ℝ`/`ℂ`; only the error/success
branching matters for the claims, and that branching is on exact conditions. -/

open scoped Classical

/-- `np.linalg.norm(direction)`: the Euclidean norm of the direction vector. -/
noncomputable def dirNorm (d : List ℚ) : ℝ :=
  Real.sqrt ((d.map fun x => ((x : ℝ)) ^ 2).sum)

/-- `PlaneWaveSource.build` from `src/loads.py`: checks the arity, then raises
`ValueError("PlaneWaveSource.direction must be non-zero")` when the direction
norm is zero, otherwise returns the complex field
`exp(i(k̂·x + phase))` sampled at each (row-major) node, where
`x_a = idx_a * spacing_a` (the `np.linspace(0, L, n)` nodes) and
`k̂ = direction / ‖direction‖`. -/
noncomputable def planeWaveBuild (direction : List ℚ) (phase : ℝ) (g : Grid) :
    Except String (ℕ → ℂ) :=
  if direction.length < g.dims then
    .error ("PlaneWaveSource.direction must have one entry per dimension")
  else
    if dirNorm (direction.take g.dims) = 0 then
      .error ("PlaneWaveSource.direction must be non-zero")
    else
      .ok (fun r => Complex.exp (Complex.I * Complex.ofReal
        (((List.range g.dims).map fun a =>
          (((unflatten_index r g.shape).getD a 0 : ℕ) : ℝ)
            * (((g.spacing.getD a 0 : ℚ)) : ℝ)
            * ((((direction.take g.dims).getD a 0 : ℚ)) : ℝ)
            / dirNorm (direction.take g.dims)).sum + phase)))

/-- `PlaneWaveSource.build` from `python/helmholtz_basics/loads.py`: the same
construction but with NO zero-norm check — `direction /= np.linalg.norm(direction)`
divides unconditionally and the function always returns a field (for a
zero-norm direction, numpy emits a division warning and fills the result with
NaN instead of raising). -/
noncomputable def planeWaveBuildHB (direction : List ℚ) (phase : ℝ) (g : Grid) :
    Except String (ℕ → ℂ) :=
  .ok (fun r => Complex.exp (Complex.I * Complex.ofReal
    (((List.range g.dims).map fun a =>
      (((unflatten_index r g.shape).getD a 0 : ℕ) : ℝ)
        * (((g.spacing.getD a 0 : ℚ)) : ℝ)
        * ((((direction.take g.dims).getD a 0 : ℚ)) : ℝ)
        / dirNorm (direction.take g.dims)).sum + phase)))

/-- C8: on the valid 1-D grid with two nodes and the zero direction `(0.0,)`,
the `src/loads.py` builder fails (as the claim requires), but the
`python/helmholtz_basics/loads.py` builder silently returns a vector: it has
no zero-norm check at all. -/
theorem c8_planewave_zero_direction :
    exceptIsOk (planeWaveBuild [0] 0 ⟨[2], [1]⟩) = false ∧
      exceptIsOk (planeWaveBuildHB [0] 0 ⟨[2], [1]⟩) = true := by
  constructor
  · have hz : dirNorm (List.take (Grid.dims ⟨[2], [1]⟩) [0]) = 0 := by
      simp [dirNorm, Grid.dims]
    rw [planeWaveBuild, if_neg (by decide), if_pos hz]
    rfl
  · rfl

/-! GMRES core (`gmres_basic` in
`notebooks/cell_exports/Helmholtz_GMRES_Julia_MSc_cells.py`, section 5).
Vectors are `Fin n → ℝ`; the Euclidean norm is a real square root, so these
definitions are noncomputable but exact. -/

/-- Euclidean norm `norm(v)` (Julia `LinearAlgebra.norm`). -/
noncomputable def vnorm {n : ℕ} (v : Fin n → ℝ) : ℝ :=
  Real.sqrt (∑ i, v i ^ 2)

/-- Real dot product `dot(v, w)`. -/
noncomputable def dotv {n : ℕ} (v w : Fin n → ℝ) : ℝ :=
  ∑ i, v i * w i

/-- State of one GMRES run: the Arnoldi basis `V` (1-indexed columns, as in
the Julia source, unset columns are the preallocated zeros), the Hessenberg
entries `H`, the current candidate `x`, the residual-norm history `res_hist`
and the residual fields `res_fields`. -/
structure GmresState (n : ℕ) where
  V : ℕ → Fin n → ℝ
  H : ℕ → ℕ → ℝ
  x : Fin n → ℝ
  hist : List ℝ
  fields : List (Fin n → ℝ)

/-- Modified Gram-Schmidt sweep: the value of `w` after the inner loop
`for j in 1:k; H[j,k] = dot(V[:,j], w); w .-= H[j,k]*V[:,j]; end` has
processed columns `1..j`. -/
noncomputable def mgsW {n : ℕ} (V : ℕ → Fin n → ℝ) (w : Fin n → ℝ) : ℕ → Fin n → ℝ
  | 0 => w
  | j + 1 => mgsW V w j - dotv (V (j + 1)) (mgsW V w j) • V (j + 1)

/-- Julia's least-squares backslash `H[1:k+1,1:k] \ e1` for a tall matrix,
modelled through the normal equations `(MᵀM)⁻¹ Mᵀ c`: this is the unique
least-squares solution whenever `M` has full column rank; Mathlib's matrix
inverse is `0` when `MᵀM` is singular, so the rank-deficient zero block maps
to the zero coefficient vector, as pivoted QR also produces there. -/
noncomputable def lstsq {m k : ℕ} (M : Matrix (Fin m) (Fin k) ℝ) (c : Fin m → ℝ) :
    Fin k → ℝ :=
  Matrix.mulVec (Matrix.transpose M * M)⁻¹ (Matrix.mulVec (Matrix.transpose M) c)

/-- One iteration of the `for k in 1:maxit` body of `gmres_basic`:
`w = A*V[:,k]`, modified Gram-Schmidt against `V[:,1:k]` filling column `k`
of `H`, `H[k+1,k] = norm(w)`, normalisation of `V[:,k+1]` only when
`H[k+1,k] > 0 && k < maxit`, least-squares solve for `y`, candidate
`x = x0 + V[:,1:k]*y`, true residual `rk = b - A*x`, and the two appends.
The second component is `rnorm = norm(rk)` used by the stopping test. -/
noncomputable def gmresStep {n : ℕ} (A : Matrix (Fin n) (Fin n) ℝ) (b x0 : Fin n → ℝ)
    (maxit : ℕ) (β : ℝ) (k : ℕ) (s : GmresState n) : GmresState n × ℝ :=
  let w0 := A.mulVec (s.V k)
  let wk := mgsW s.V w0 k
  let hsub := vnorm wk
  let Hn : ℕ → ℕ → ℝ := fun j c =>
    if c = k then
      (if j = k + 1 then hsub
       else if 1 ≤ j ∧ j ≤ k then dotv (s.V j) (mgsW s.V w0 (j - 1))
       else s.H j c)
    else s.H j c
  let Vn : ℕ → Fin n → ℝ :=
    if 0 < hsub ∧ k < maxit then (fun c => if c = k + 1 then hsub⁻¹ • wk else s.V c)
    else s.V
  let y : Fin k → ℝ :=
    lstsq (Matrix.of fun (i : Fin (k + 1)) (j : Fin k) => Hn (i.val + 1) (j.val + 1))
      (fun i : Fin (k + 1) => if i.val = 0 then β else 0)
  let xn := x0 + ∑ j : Fin k, y j • Vn (j.val + 1)
  let rk := b - A.mulVec xn
  ({ V := Vn, H := Hn, x := xn, hist := s.hist ++ [vnorm rk],
     fields := s.fields ++ [rk] }, vnorm rk)

/-- The `for k in 1:maxit` loop with the `if rnorm < tol; break; end` exit:
`fuel` is the number of remaining iterations, `k` the current step index. -/
noncomputable def gmresLoop {n : ℕ} (A : Matrix (Fin n) (Fin n) ℝ) (b x0 : Fin n → ℝ)
    (maxit : ℕ) (tol β : ℝ) : ℕ → ℕ → GmresState n → GmresState n
  | _, 0, s => s
  | k, fuel + 1, s =>
    if (gmresStep A b x0 maxit β k s).2 < tol then (gmresStep A b x0 maxit β k s).1
    else gmresLoop A b x0 maxit tol β (k + 1) fuel (gmresStep A b x0 maxit β k s).1

/-- The initial state of `gmres_basic`: `r0 = b - A*x0`, `β = norm(r0)`,
`V[:,1] = r0/β`, preallocated zeros elsewhere, `res_hist = [β]`, no fields. -/
noncomputable def gmresInit {n : ℕ} (A : Matrix (Fin n) (Fin n) ℝ) (b x0 : Fin n → ℝ) :
    GmresState n :=
  let r0 := b - A.mulVec x0
  let β := vnorm r0
  { V := fun c => if c = 1 then β⁻¹ • r0 else 0
    H := fun _ _ => 0
    x := x0
    hist := [β]
    fields := [] }

/-- The state after the main loop of `gmres_basic` has run. -/
noncomputable def gmresFinalState {n : ℕ} (A : Matrix (Fin n) (Fin n) ℝ)
    (b x0 : Fin n → ℝ) (maxit : ℕ) (tol : ℝ) : GmresState n :=
  gmresLoop A b x0 maxit tol (vnorm (b - A.mulVec x0)) 1 maxit (gmresInit A b x0)

/-- `gmres_basic(A, b; x0, maxit, tol)`: returns `(x, res_hist, res_fields)`;
if `β == 0` it returns immediately with history `[0.0]` and no fields. -/
noncomputable def gmres_basic {n : ℕ} (A : Matrix (Fin n) (Fin n) ℝ) (b : Fin n → ℝ)
    (x0 : Fin n → ℝ) (maxit : ℕ) (tol : ℝ) :
    (Fin n → ℝ) × List ℝ × List (Fin n → ℝ) :=
  if vnorm (b - A.mulVec x0) = 0 then (x0, [0], [])
  else
    ((gmresFinalState A b x0 maxit tol).x, (gmresFinalState A b x0 maxit tol).hist,
      (gmresFinalState A b x0 maxit tol).fields)

/-- `SolverResult` (`src/solvers.py`): solution, residual norms, converged
flag, and the raw status code `info`. -/
structure SolverResult (n : ℕ) where
  solution : Fin n → ℝ
  residuals : List ℝ
  converged : Bool
  info : ℤ

/-- The result assembly at the end of `gmres_solve` (`src/solvers.py`):
`converged = (info == 0); return SolverResult(solution, residuals, converged, info)`. -/
def mkSolverResult {n : ℕ} (solution : Fin n → ℝ) (residuals : List ℝ) (info : ℤ) :
    SolverResult n :=
  { solution := solution, residuals := residuals, converged := info == 0, info := info }

/-- The guarded denominator of the relative-residual logging in `gmres_solve`
(`src/solvers.py`): `b_norm = float(np.linalg.norm(rhs)) or 1.0` — Python's
`or` replaces the value by `1.0` exactly when the norm is `0.0`. -/
noncomputable def b_norm_guard {n : ℕ} (rhs : Fin n → ℝ) : ℝ :=
  if vnorm rhs = 0 then 1 else vnorm rhs

/-- The `_callback` body in `gmres_solve` (`src/solvers.py`):
`norm_rel = float(np.linalg.norm(residual) / b_norm)`. -/
noncomputable def callback_entry {n : ℕ} (residual rhs : Fin n → ℝ) : ℝ :=
  vnorm residual / b_norm_guard rhs

/-! Structural facts about the loop shared by several claims. -/

theorem gmresStep_spec {n : ℕ} (A : Matrix (Fin n) (Fin n) ℝ) (b x0 : Fin n → ℝ)
    (maxit : ℕ) (β : ℝ) (k : ℕ) (s : GmresState n) :
    (gmresStep A b x0 maxit β k s).1.hist
        = s.hist ++ [(gmresStep A b x0 maxit β k s).2] ∧
      ∃ rk, (gmresStep A b x0 maxit β k s).1.fields = s.fields ++ [rk] ∧
        vnorm rk = (gmresStep A b x0 maxit β k s).2 :=
  ⟨rfl, _, rfl, rfl⟩

theorem gmresLoop_hist_inv {n : ℕ} (A : Matrix (Fin n) (Fin n) ℝ) (b x0 : Fin n → ℝ)
    (maxit : ℕ) (tol β : ℝ) :
    ∀ (fuel k : ℕ) (s : GmresState n), s.hist = β :: s.fields.map vnorm →
      (gmresLoop A b x0 maxit tol β k fuel s).hist
        = β :: (gmresLoop A b x0 maxit tol β k fuel s).fields.map vnorm := by
  intro fuel
  induction fuel with
  | zero => intro k s h; simpa [gmresLoop] using h
  | succ m ih =>
    intro k s h
    obtain ⟨h1, rk, h2, h3⟩ := gmresStep_spec A b x0 maxit β k s
    have hstep : (gmresStep A b x0 maxit β k s).1.hist
        = β :: (gmresStep A b x0 maxit β k s).1.fields.map vnorm := by
      rw [h1, h2, h, List.map_append]
      simp [h3]
    simp only [gmresLoop]
    by_cases hc : (gmresStep A b x0 maxit β k s).2 < tol
    · rw [if_pos hc]
      exact hstep
    · rw [if_neg hc]
      exact ih (k + 1) _ hstep

theorem gmresLoop_length {n : ℕ} (A : Matrix (Fin n) (Fin n) ℝ) (b x0 : Fin n → ℝ)
    (maxit : ℕ) (tol β : ℝ) :
    ∀ (fuel k : ℕ) (s : GmresState n),
      (gmresLoop A b x0 maxit tol β k fuel s).fields.length ≤ s.fields.length + fuel := by
  intro fuel
  induction fuel with
  | zero => intro k s; simp [gmresLoop]
  | succ m ih =>
    intro k s
    obtain ⟨h1, rk, h2, h3⟩ := gmresStep_spec A b x0 maxit β k s
    simp only [gmresLoop]
    by_cases hc : (gmresStep A b x0 maxit β k s).2 < tol
    · rw [if_pos hc, h2]
      simp only [List.length_append, List.length_singleton]
      omega
    · rw [if_neg hc]
      have := ih (k + 1) (gmresStep A b x0 maxit β k s).1
      rw [h2] at this
      simp only [List.length_append, List.length_singleton] at this
      omega

theorem gmresLoop_early_exit {n : ℕ} (A : Matrix (Fin n) (Fin n) ℝ) (b x0 : Fin n → ℝ)
    (maxit : ℕ) (tol β : ℝ) :
    ∀ (fuel k : ℕ) (s : GmresState n),
      (gmresLoop A b x0 maxit tol β k fuel s).fields.length < s.fields.length + fuel →
      ∃ r, (gmresLoop A b x0 maxit tol β k fuel s).hist.getLast? = some r ∧ r < tol := by
  intro fuel
  induction fuel with
  | zero =>
    intro k s h
    simp only [gmresLoop] at h
    omega
  | succ m ih =>
    intro k s h
    obtain ⟨h1, rk, h2, h3⟩ := gmresStep_spec A b x0 maxit β k s
    simp only [gmresLoop] at h ⊢
    by_cases hc : (gmresStep A b x0 maxit β k s).2 < tol
    · rw [if_pos hc]
      refine ⟨(gmresStep A b x0 maxit β k s).2, ?_, hc⟩
      rw [h1]
      exact List.getLast?_concat _
    · rw [if_neg hc] at h ⊢
      apply ih (k + 1)
      rw [h2]
      simp only [List.length_append, List.length_singleton]
      omega

/-- The residual history of `gmres_basic` is always the initial residual norm
followed by the norms of the per-iteration residual fields, in order. -/
theorem gmres_basic_hist_eq {n : ℕ} (A : Matrix (Fin n) (Fin n) ℝ) (b x0 : Fin n → ℝ)
    (maxit : ℕ) (tol : ℝ) :
    (gmres_basic A b x0 maxit tol).2.1
      = vnorm (b - A.mulVec x0) :: ((gmres_basic A b x0 maxit tol).2.2.map vnorm) := by
  unfold gmres_basic
  by_cases h : vnorm (b - A.mulVec x0) = 0
  · rw [if_pos h]
    simp [h]
  · rw [if_neg h]
    exact gmresLoop_hist_inv A b x0 maxit tol _ maxit 1 (gmresInit A b x0)
      (by simp [gmresInit])

/-- C4: the residual sequence of a `gmres_basic` solve is the initial residual
norm `‖b - A x0‖` at index 0 followed by exactly one entry per completed
iteration, namely the norm of that iteration's residual field, in iteration
order; in particular its length is the number of completed iterations plus
one. -/
theorem c4_residual_history {n : ℕ} (A : Matrix (Fin n) (Fin n) ℝ) (b x0 : Fin n → ℝ)
    (maxit : ℕ) (tol : ℝ) :
    (gmres_basic A b x0 maxit tol).2.1
      = vnorm (b - A.mulVec x0) :: ((gmres_basic A b x0 maxit tol).2.2.map vnorm) :=
  gmres_basic_hist_eq A b x0 maxit tol

/-- C6: a `gmres_basic` solve performs at most `maxit` Arnoldi iterations and
always returns its history (one entry more than the iteration count), and the
`gmres_solve` wrapper marks any nonzero status code as `converged = false`
rather than raising. -/
theorem c6_normal_termination {n : ℕ} (A : Matrix (Fin n) (Fin n) ℝ) (b x0 : Fin n → ℝ)
    (maxit : ℕ) (tol : ℝ) (sol : Fin n → ℝ) (res : List ℝ) (info : ℤ) :
    (gmres_basic A b x0 maxit tol).2.2.length ≤ maxit ∧
      (gmres_basic A b x0 maxit tol).2.1.length
        = (gmres_basic A b x0 maxit tol).2.2.length + 1 ∧
      (info ≠ 0 → (mkSolverResult sol res info).converged = false) := by
  refine ⟨?_, ?_, ?_⟩
  · unfold gmres_basic
    by_cases h : vnorm (b - A.mulVec x0) = 0
    · rw [if_pos h]
      simp
    · rw [if_neg h]
      have := gmresLoop_length A b x0 maxit tol (vnorm (b - A.mulVec x0)) maxit 1
        (gmresInit A b x0)
      simpa [gmresFinalState, gmresInit] using this
  · rw [gmres_basic_hist_eq A b x0 maxit tol]
    simp
  · intro h
    simp [mkSolverResult, h]

/-- C6 witness: a concrete instance of the termination bound together with
the flag assignment at the nonzero status code `info = 5`. -/
theorem c6_normal_termination_witness :
    (gmres_basic (0 : Matrix (Fin 1) (Fin 1) ℝ) (fun _ => 1) 0 0 1).2.2.length ≤ 0 ∧
      (gmres_basic (0 : Matrix (Fin 1) (Fin 1) ℝ) (fun _ => 1) 0 0 1).2.1.length
        = (gmres_basic (0 : Matrix (Fin 1) (Fin 1) ℝ) (fun _ => 1) 0 0 1).2.2.length + 1 ∧
      (mkSolverResult (n := 1) 0 [] 5).converged = false := by
  have h := c6_normal_termination (0 : Matrix (Fin 1) (Fin 1) ℝ) (fun _ => 1) 0 0 1 0 [] 5
  exact ⟨h.1, h.2.1, h.2.2 (by decide)⟩

/-- C5 (amended): `gmres_basic` contains no breakdown stopping test — the only
early exit from the Arnoldi loop is the residual-tolerance check: whenever the
initial residual is nonzero and the solve completed fewer than `maxit`
iterations, the final history entry is below `tol`.  (A zero `H[k+1,k]` by
itself merely skips the normalisation of `v_{k+1}`; see the counterexample.) -/
theorem c5_tolerance_only_early_exit {n : ℕ} (A : Matrix (Fin n) (Fin n) ℝ)
    (b x0 : Fin n → ℝ) (maxit : ℕ) (tol : ℝ)
    (hb : vnorm (b - A.mulVec x0) ≠ 0)
    (hlen : (gmres_basic A b x0 maxit tol).2.2.length < maxit) :
    ∃ r, (gmres_basic A b x0 maxit tol).2.1.getLast? = some r ∧ r < tol := by
  unfold gmres_basic at hlen ⊢
  rw [if_neg hb] at hlen ⊢
  unfold gmresFinalState at hlen ⊢
  have := gmresLoop_early_exit A b x0 maxit tol (vnorm (b - A.mulVec x0)) maxit 1
    (gmresInit A b x0)
  simp only [gmresInit, List.length_nil, Nat.zero_add] at this hlen
  exact this (by simpa using hlen)

/-! Concrete evaluation of `gmres_basic` runs against the zero operator: the
Arnoldi residual component is zero at every step (a breakdown at step 1), yet
the loop keeps iterating because the code has no breakdown stopping test. -/

theorem dotv_zero_right {n : ℕ} (v : Fin n → ℝ) : dotv v 0 = 0 := by
  simp [dotv]

theorem mgsW_zero {n : ℕ} (V : ℕ → Fin n → ℝ) : ∀ j, mgsW V 0 j = 0 := by
  intro j
  induction j with
  | zero => rfl
  | succ m ih => simp [mgsW, ih, dotv_zero_right]

theorem vnorm_zero {n : ℕ} : vnorm (0 : Fin n → ℝ) = 0 := by
  simp [vnorm]

theorem vnorm_ones_one : vnorm (fun _ : Fin 1 => (1 : ℝ)) = 1 := by
  simp [vnorm]

theorem gmresStep_zero_matrix {n : ℕ} (b x0 : Fin n → ℝ) (maxit : ℕ) (β : ℝ) (k : ℕ)
    (s : GmresState n) :
    (gmresStep (0 : Matrix (Fin n) (Fin n) ℝ) b x0 maxit β k s).2 = vnorm b ∧
      (gmresStep (0 : Matrix (Fin n) (Fin n) ℝ) b x0 maxit β k s).1.fields
        = s.fields ++ [b] ∧
      (gmresStep (0 : Matrix (Fin n) (Fin n) ℝ) b x0 maxit β k s).1.V = s.V ∧
      ∀ j c, (gmresStep (0 : Matrix (Fin n) (Fin n) ℝ) b x0 maxit β k s).1.H j c
        = if c = k then
            (if j = k + 1 then 0 else if 1 ≤ j ∧ j ≤ k then 0 else s.H j c)
          else s.H j c := by
  refine ⟨?_, ?_, ?_, ?_⟩
  · simp [gmresStep, Matrix.zero_mulVec]
  · simp [gmresStep, Matrix.zero_mulVec]
  · simp [gmresStep, Matrix.zero_mulVec, mgsW_zero, vnorm_zero]
  · intro j c
    simp [gmresStep, Matrix.zero_mulVec, mgsW_zero, vnorm_zero, dotv_zero_right]

theorem gmresLoop_exit_first {n : ℕ} (A : Matrix (Fin n) (Fin n) ℝ) (b x0 : Fin n → ℝ)
    (maxit : ℕ) (tol β : ℝ) (k fuel : ℕ) (s : GmresState n)
    (hc : (gmresStep A b x0 maxit β k s).2 < tol) :
    gmresLoop A b x0 maxit tol β k (fuel + 1) s = (gmresStep A b x0 maxit β k s).1 := by
  simp only [gmresLoop]
  rw [if_pos hc]

theorem gmresLoop_step_first {n : ℕ} (A : Matrix (Fin n) (Fin n) ℝ) (b x0 : Fin n → ℝ)
    (maxit : ℕ) (tol β : ℝ) (k fuel : ℕ) (s : GmresState n)
    (hc : ¬(gmresStep A b x0 maxit β k s).2 < tol) :
    gmresLoop A b x0 maxit tol β k (fuel + 1) s
      = gmresLoop A b x0 maxit tol β (k + 1) fuel (gmresStep A b x0 maxit β k s).1 := by
  simp only [gmresLoop]
  rw [if_neg hc]

/-- C5 counterexample: solving with the 1×1 zero operator and `b = (1)`,
`x0 = 0`, `maxit = 2`, `tol = 1e-8`: the sub-diagonal Hessenberg entry
`H[2,1]` of the first Arnoldi step is `0` (lucky breakdown at step 1), yet the
solver performs all 2 Arnoldi iterations — it does not stop at the breakdown,
refuting the claim as stated. -/
theorem c5_counterexample :
    (gmresFinalState (0 : Matrix (Fin 1) (Fin 1) ℝ) (fun _ => 1) 0 2 (1 / 10 ^ 8)).H 2 1 = 0 ∧
      (gmres_basic (0 : Matrix (Fin 1) (Fin 1) ℝ) (fun _ => 1) 0 2 (1 / 10 ^ 8)).2.2.length
        = 2 := by
  have hb0 : vnorm ((fun _ : Fin 1 => (1 : ℝ))
      - (0 : Matrix (Fin 1) (Fin 1) ℝ).mulVec 0) = 1 := by
    rw [Matrix.zero_mulVec, sub_zero, vnorm_ones_one]
  have hstep1 := gmresStep_zero_matrix (n := 1) (fun _ => 1) 0 2
    (vnorm ((fun _ : Fin 1 => (1 : ℝ)) - (0 : Matrix (Fin 1) (Fin 1) ℝ).mulVec 0)) 1
    (gmresInit 0 (fun _ => 1) 0)
  have hnc1 : ¬(gmresStep (0 : Matrix (Fin 1) (Fin 1) ℝ) (fun _ => 1) 0 2
      (vnorm ((fun _ : Fin 1 => (1 : ℝ)) - (0 : Matrix (Fin 1) (Fin 1) ℝ).mulVec 0)) 1
      (gmresInit 0 (fun _ => 1) 0)).2 < 1 / 10 ^ 8 := by
    rw [hstep1.1, vnorm_ones_one]
    norm_num
  have hstep2 := gmresStep_zero_matrix (n := 1) (fun _ => 1) 0 2
    (vnorm ((fun _ : Fin 1 => (1 : ℝ)) - (0 : Matrix (Fin 1) (Fin 1) ℝ).mulVec 0)) 2
    (gmresStep (0 : Matrix (Fin 1) (Fin 1) ℝ) (fun _ => 1) 0 2
      (vnorm ((fun _ : Fin 1 => (1 : ℝ)) - (0 : Matrix (Fin 1) (Fin 1) ℝ).mulVec 0)) 1
      (gmresInit 0 (fun _ => 1) 0)).1
  have hnc2 : ¬(gmresStep (0 : Matrix (Fin 1) (Fin 1) ℝ) (fun _ => 1) 0 2
      (vnorm ((fun _ : Fin 1 => (1 : ℝ)) - (0 : Matrix (Fin 1) (Fin 1) ℝ).mulVec 0)) 2
      (gmresStep (0 : Matrix (Fin 1) (Fin 1) ℝ) (fun _ => 1) 0 2
        (vnorm ((fun _ : Fin 1 => (1 : ℝ)) - (0 : Matrix (Fin 1) (Fin 1) ℝ).mulVec 0)) 1
        (gmresInit 0 (fun _ => 1) 0)).1).2 < 1 / 10 ^ 8 := by
    rw [hstep2.1, vnorm_ones_one]
    norm_num
  have hrun : gmresFinalState (0 : Matrix (Fin 1) (Fin 1) ℝ) (fun _ => 1) 0 2 (1 / 10 ^ 8)
      = (gmresStep (0 : Matrix (Fin 1) (Fin 1) ℝ) (fun _ => 1) 0 2
          (vnorm ((fun _ : Fin 1 => (1 : ℝ)) - (0 : Matrix (Fin 1) (Fin 1) ℝ).mulVec 0)) 2
          (gmresStep (0 : Matrix (Fin 1) (Fin 1) ℝ) (fun _ => 1) 0 2
            (vnorm ((fun _ : Fin 1 => (1 : ℝ)) - (0 : Matrix (Fin 1) (Fin 1) ℝ).mulVec 0)) 1
            (gmresInit 0 (fun _ => 1) 0)).1).1 := by
    unfold gmresFinalState
    have e1 := gmresLoop_step_first (0 : Matrix (Fin 1) (Fin 1) ℝ) (fun _ => 1) 0 2
      (1 / 10 ^ 8)
      (vnorm ((fun _ : Fin 1 => (1 : ℝ)) - (0 : Matrix (Fin 1) (Fin 1) ℝ).mulVec 0)) 1 1
      (gmresInit 0 (fun _ => 1) 0) hnc1
    have e2 := gmresLoop_step_first (0 : Matrix (Fin 1) (Fin 1) ℝ) (fun _ => 1) 0 2
      (1 / 10 ^ 8)
      (vnorm ((fun _ : Fin 1 => (1 : ℝ)) - (0 : Matrix (Fin 1) (Fin 1) ℝ).mulVec 0)) 2 0
      (gmresStep (0 : Matrix (Fin 1) (Fin 1) ℝ) (fun _ => 1) 0 2
        (vnorm ((fun _ : Fin 1 => (1 : ℝ)) - (0 : Matrix (Fin 1) (Fin 1) ℝ).mulVec 0)) 1
        (gmresInit 0 (fun _ => 1) 0)).1 hnc2
    calc gmresLoop (0 : Matrix (Fin 1) (Fin 1) ℝ) (fun _ => 1) 0 2 (1 / 10 ^ 8)
          (vnorm ((fun _ : Fin 1 => (1 : ℝ)) - (0 : Matrix (Fin 1) (Fin 1) ℝ).mulVec 0)) 1 2
          (gmresInit 0 (fun _ => 1) 0)
        = gmresLoop (0 : Matrix (Fin 1) (Fin 1) ℝ) (fun _ => 1) 0 2 (1 / 10 ^ 8)
          (vnorm ((fun _ : Fin 1 => (1 : ℝ)) - (0 : Matrix (Fin 1) (Fin 1) ℝ).mulVec 0)) 2 1
          (gmresStep (0 : Matrix (Fin 1) (Fin 1) ℝ) (fun _ => 1) 0 2
            (vnorm ((fun _ : Fin 1 => (1 : ℝ)) - (0 : Matrix (Fin 1) (Fin 1) ℝ).mulVec 0)) 1
            (gmresInit 0 (fun _ => 1) 0)).1 := e1
      _ = _ := e2
  constructor
  · rw [hrun, hstep2.2.2.2 2 1, if_neg (by norm_num : ¬(1 = 2)), hstep1.2.2.2 2 1,
      if_pos (rfl : (1 : ℕ) = 1)]
    norm_num
  · unfold gmres_basic
    rw [if_neg (by rw [hb0]; norm_num)]
    rw [hrun, hstep2.2.1, hstep1.2.1]
    simp [gmresInit]

/-- C5 witness: with the zero operator, `b = (1)`, `maxit = 5` and the large
tolerance `tol = 2`, the first iteration's residual norm `1` is below `tol`,
the solver stops after one iteration (`1 < 5` fields), and the theorem
produces the final history entry below `tol`. -/
theorem c5_tolerance_only_early_exit_witness :
    vnorm ((fun _ : Fin 1 => (1 : ℝ)) - (0 : Matrix (Fin 1) (Fin 1) ℝ).mulVec 0) ≠ 0 ∧
      (gmres_basic (0 : Matrix (Fin 1) (Fin 1) ℝ) (fun _ => 1) 0 5 2).2.2.length < 5 ∧
      ∃ r, (gmres_basic (0 : Matrix (Fin 1) (Fin 1) ℝ) (fun _ => 1) 0 5 2).2.1.getLast?
          = some r ∧ r < 2 := by
  have hb0 : vnorm ((fun _ : Fin 1 => (1 : ℝ))
      - (0 : Matrix (Fin 1) (Fin 1) ℝ).mulVec 0) = 1 := by
    rw [Matrix.zero_mulVec, sub_zero, vnorm_ones_one]
  have hne : vnorm ((fun _ : Fin 1 => (1 : ℝ))
      - (0 : Matrix (Fin 1) (Fin 1) ℝ).mulVec 0) ≠ 0 := by
    rw [hb0]; norm_num
  have hstep1 := gmresStep_zero_matrix (n := 1) (fun _ => 1) 0 5
    (vnorm ((fun _ : Fin 1 => (1 : ℝ)) - (0 : Matrix (Fin 1) (Fin 1) ℝ).mulVec 0)) 1
    (gmresInit 0 (fun _ => 1) 0)
  have hc1 : (gmresStep (0 : Matrix (Fin 1) (Fin 1) ℝ) (fun _ => 1) 0 5
      (vnorm ((fun _ : Fin 1 => (1 : ℝ)) - (0 : Matrix (Fin 1) (Fin 1) ℝ).mulVec 0)) 1
      (gmresInit 0 (fun _ => 1) 0)).2 < 2 := by
    rw [hstep1.1, vnorm_ones_one]
    norm_num
  have hrun : gmresFinalState (0 : Matrix (Fin 1) (Fin 1) ℝ) (fun _ => 1) 0 5 2
      = (gmresStep (0 : Matrix (Fin 1) (Fin 1) ℝ) (fun _ => 1) 0 5
          (vnorm ((fun _ : Fin 1 => (1 : ℝ)) - (0 : Matrix (Fin 1) (Fin 1) ℝ).mulVec 0)) 1
          (gmresInit 0 (fun _ => 1) 0)).1 := by
    unfold gmresFinalState
    exact gmresLoop_exit_first (0 : Matrix (Fin 1) (Fin 1) ℝ) (fun _ => 1) 0 5 2
      (vnorm ((fun _ : Fin 1 => (1 : ℝ)) - (0 : Matrix (Fin 1) (Fin 1) ℝ).mulVec 0)) 1 4
      (gmresInit 0 (fun _ => 1) 0) hc1
  have hlen : (gmres_basic (0 : Matrix (Fin 1) (Fin 1) ℝ) (fun _ => 1) 0 5 2).2.2.length
      < 5 := by
    unfold gmres_basic
    rw [if_neg hne, hrun, hstep1.2.1]
    simp [gmresInit]
  exact ⟨hne, hlen,
    c5_tolerance_only_early_exit (0 : Matrix (Fin 1) (Fin 1) ℝ) (fun _ => 1) 0 5 2 hne hlen⟩

/-- C10: the relative-residual denominator of `gmres_solve` is strictly
positive for every right-hand side — it equals `‖rhs‖` when that is nonzero
and `1.0` when `‖rhs‖ = 0` — so every logged entry is exactly the residual
norm divided by this guarded denominator and the division is never a division
by zero. -/
theorem c10_relative_residual_guard {n : ℕ} (rhs residual : Fin n → ℝ) :
    0 < b_norm_guard rhs ∧
      callback_entry residual rhs * b_norm_guard rhs = vnorm residual ∧
      (vnorm rhs = 0 → b_norm_guard rhs = 1) ∧
      (vnorm rhs ≠ 0 → b_norm_guard rhs = vnorm rhs) := by
  have h0 : 0 ≤ vnorm rhs := Real.sqrt_nonneg _
  by_cases h : vnorm rhs = 0
  · have hb : b_norm_guard rhs = 1 := by rw [b_norm_guard, if_pos h]
    refine ⟨by rw [hb]; norm_num, ?_, fun _ => hb, fun hne => absurd h hne⟩
    rw [callback_entry, hb]
    simp
  · have hb : b_norm_guard rhs = vnorm rhs := by rw [b_norm_guard, if_neg h]
    have hpos : 0 < vnorm rhs := lt_of_le_of_ne h0 (Ne.symm h)
    refine ⟨by rw [hb]; exact hpos, ?_, fun hz => absurd hz h, fun _ => hb⟩
    rw [callback_entry, hb]
    exact div_mul_cancel₀ _ h

/-- C10 witness: at the all-zero right-hand side the guard is `1` (hence
positive), and at a nonzero right-hand side it is the norm itself. -/
theorem c10_relative_residual_guard_witness :
    0 < b_norm_guard (0 : Fin 1 → ℝ) ∧ b_norm_guard (0 : Fin 1 → ℝ) = 1 ∧
      b_norm_guard (fun _ : Fin 1 => (1 : ℝ)) = 1 := by
  refine ⟨(c10_relative_residual_guard (0 : Fin 1 → ℝ) (fun _ => 3)).1,
    (c10_relative_residual_guard (0 : Fin 1 → ℝ) (fun _ => 3)).2.2.1 vnorm_zero, ?_⟩
  rw [(c10_relative_residual_guard (fun _ : Fin 1 => (1 : ℝ)) (fun _ => 3)).2.2.2
    (by rw [vnorm_ones_one]; norm_num)]
  exact vnorm_ones_one

end HelmholtzSpec
